import Mathlib

/-!
Shallow embedding of the structured document editor framework
(src/structured_document_editor_framework.cpp).

The element tree (`DocumentElement`), the rendering contract (`RenderCall`
traces), cloning, type tags, the flyweight format cache, the document with
observers and lifecycle state, the command history, and the flat iterator
are translated directly from the C++ source.  Backend calls are modelled as
an abstract trace: every `IRenderer` implementation is driven by exactly
the sequence of virtual calls the tree issues, so two elements that issue
the same call sequence produce identical output on every backend.
-/

namespace DocEditor

/-- Abstract record of one virtual call on the `IRenderer` interface. -/
inductive RenderCall where
  | renderText (text : String) (bold : Bool) (italic : Bool)
  | renderImage (path : String)
  | renderTable (rows cols : Int)
  | startSection
  | endSection
  deriving DecidableEq, Repr

/-- The polymorphic `DocumentElement` hierarchy.  `paragraph` carries its
content and the (possibly absent) shared format handle, modelled as the
interned instance id handed out by the flyweight factory.  `imageProxy`
carries its stored path and whether the real `Image` has been materialized
(the cached `realImage` is always `Image(imagePath)`, so a flag captures
its state exactly).  `shapeAdapter` is the legacy-shape adapter, which
draws through the legacy drawer and issues no renderer calls. -/
inductive DocumentElement where
  | paragraph (content : String) (format : Option Nat)
  | image (imagePath : String)
  | table (rows cols : Int)
  | sect (sectionName : String) (children : List DocumentElement)
  | bold (wrappedElement : DocumentElement)
  | italic (wrappedElement : DocumentElement)
  | imageProxy (imagePath : String) (loaded : Bool)
  | shapeAdapter (x y width height : Int)

mutual

/-- Stateful `draw`: returns the element after the draw (an `imageProxy`
may materialize its image), the sequence of renderer calls issued, and the
number of proxy materialization events ("[Proxy] Loading image" lines).
`BoldDecorator::draw` and `ItalicDecorator::draw` special-case a wrapped
element that `dynamic_cast`s to `Paragraph`; otherwise they forward. -/
def drawS : DocumentElement → DocumentElement × List RenderCall × Nat
  | .paragraph c f => (.paragraph c f, ([.renderText c false false], 0))
  | .image p => (.image p, ([.renderImage p], 0))
  | .table r c => (.table r c, ([.renderTable r c], 0))
  | .sect n cs =>
      let r := drawSList cs
      (.sect n r.1, (.startSection :: r.2.1 ++ [.endSection], r.2.2))
  | .bold w =>
      match w with
      | .paragraph c f => (.bold (.paragraph c f), ([.renderText c true false], 0))
      | .image p => let r := drawS (DocumentElement.image p); (.bold r.1, r.2)
      | .table a b => let r := drawS (DocumentElement.table a b); (.bold r.1, r.2)
      | .sect n cs => let r := drawS (DocumentElement.sect n cs); (.bold r.1, r.2)
      | .bold e => let r := drawS (DocumentElement.bold e); (.bold r.1, r.2)
      | .italic e => let r := drawS (DocumentElement.italic e); (.bold r.1, r.2)
      | .imageProxy p b => let r := drawS (DocumentElement.imageProxy p b); (.bold r.1, r.2)
      | .shapeAdapter a b c d => let r := drawS (DocumentElement.shapeAdapter a b c d); (.bold r.1, r.2)
  | .italic w =>
      match w with
      | .paragraph c f => (.italic (.paragraph c f), ([.renderText c false true], 0))
      | .image p => let r := drawS (DocumentElement.image p); (.italic r.1, r.2)
      | .table a b => let r := drawS (DocumentElement.table a b); (.italic r.1, r.2)
      | .sect n cs => let r := drawS (DocumentElement.sect n cs); (.italic r.1, r.2)
      | .bold e => let r := drawS (DocumentElement.bold e); (.italic r.1, r.2)
      | .italic e => let r := drawS (DocumentElement.italic e); (.italic r.1, r.2)
      | .imageProxy p b => let r := drawS (DocumentElement.imageProxy p b); (.italic r.1, r.2)
      | .shapeAdapter a b c d => let r := drawS (DocumentElement.shapeAdapter a b c d); (.italic r.1, r.2)
  | .imageProxy p loaded =>
      if loaded then (.imageProxy p true, ([.renderImage p], 0))
      else (.imageProxy p true, ([.renderImage p], 1))
  | .shapeAdapter x y w h => (.shapeAdapter x y w h, ([], 0))

/-- `Section::draw` body: draw each child in order, threading proxy state
and concatenating the call traces and materialization counts. -/
def drawSList : List DocumentElement → List DocumentElement × List RenderCall × Nat
  | [] => ([], ([], 0))
  | c :: cs =>
      let r := drawS c
      let rs := drawSList cs
      (r.1 :: rs.1, (r.2.1 ++ rs.2.1, r.2.2 + rs.2.2))

end

/-- The sequence of renderer calls `e.draw(renderer)` issues. -/
def drawTrace (e : DocumentElement) : List RenderCall := (drawS e).2.1

/-- Number of proxy materialization events during `e.draw(renderer)`. -/
def drawLoads (e : DocumentElement) : Nat := (drawS e).2.2

mutual

/-- `clone()` of each variant.  `Paragraph`, `Image`, `Table` use the copy
constructor (the paragraph copies the shared format handle); `Section`
clones every child in order; the decorators clone the wrapped element and
rewrap; `ImageProxy::clone` returns `ImageProxy(imagePath)`, dropping any
cached image; `ShapeAdapter` copies its geometry. -/
def clone : DocumentElement → DocumentElement
  | .paragraph c f => .paragraph c f
  | .image p => .image p
  | .table r c => .table r c
  | .sect n cs => .sect n (cloneList cs)
  | .bold e => .bold (clone e)
  | .italic e => .italic (clone e)
  | .imageProxy p _ => .imageProxy p false
  | .shapeAdapter x y w h => .shapeAdapter x y w h

/-- Clone of a child list, in order (the loop in `Section::clone`). -/
def cloneList : List DocumentElement → List DocumentElement
  | [] => []
  | c :: cs => clone c :: cloneList cs

end

/-- `getType()` of each variant.  `TextDecorator::getType` forwards to the
wrapped element; `ImageProxy::getType` returns the literal "ImageProxy". -/
def getType : DocumentElement → String
  | .paragraph _ _ => "Paragraph"
  | .image _ => "Image"
  | .table _ _ => "Table"
  | .sect _ _ => "Section"
  | .bold e => getType e
  | .italic e => getType e
  | .imageProxy _ _ => "ImageProxy"
  | .shapeAdapter _ _ _ _ => "Shape"

/-! ## Flyweight format cache (`CharacterFormatFactory`)

A `CharacterFormat` instance is identified by the `Nat` id the factory
assigned when it created it: two calls return the identical shared
instance exactly when they return the same id. -/

/-- The factory state: the map from composite key to the interned
instance, plus a counter producing fresh instance identities. -/
structure CharacterFormatFactory where
  formats : List (String × Nat)
  nextId : Nat

/-- `CharacterFormatFactory::getKey`: `font + "_" + to_string(size) + "_" + color`. -/
def getKey (font : String) (size : Int) (color : String) : String :=
  font ++ "_" ++ toString size ++ "_" ++ color

/-- Lookup in the key map (`formats.find(key)`). -/
def lookupFmt : List (String × Nat) → String → Option Nat
  | [], _ => none
  | (k, v) :: rest, key => if k = key then some v else lookupFmt rest key

/-- `CharacterFormatFactory::getFormat`: build the key; if absent, create
and store a new instance; return the stored instance for the key. -/
def getFormat (fac : CharacterFormatFactory) (font : String) (size : Int)
    (color : String) : CharacterFormatFactory × Nat :=
  let key := getKey font size color
  match lookupFmt fac.formats key with
  | some id => (fac, id)
  | none => (⟨fac.formats ++ [(key, fac.nextId)], fac.nextId + 1⟩, fac.nextId)

/-- A freshly constructed factory with an empty map. -/
def emptyFactory : CharacterFormatFactory := ⟨[], 0⟩

/-! ## Document, observers, lifecycle state -/

/-- The `DocumentState` hierarchy (`DraftState`, `ReviewState`,
`PublishedState`). -/
inductive DocumentState where
  | draft
  | review
  | published
  deriving DecidableEq

/-- `getStateName()` of the current state object. -/
def DocumentState.getStateName : DocumentState → String
  | .draft => "Draft"
  | .review => "Review"
  | .published => "Published"

/-- A `Document`: the root `Section("Root")` (name and ordered children),
the registered observers (modelled by identity tokens, in registration
order), and the current lifecycle state.  A fresh document has an empty
root and `DraftState`. -/
structure Document where
  rootName : String
  rootChildren : List DocumentElement
  observers : List Nat
  currentState : DocumentState

/-- The `Document()` constructor: root `Section("Root")`, `DraftState`. -/
def Document.new : Document := ⟨"Root", [], [], .draft⟩

/-- The root section as an element tree (`getRootSection`). -/
def Document.rootSection (d : Document) : DocumentElement :=
  .sect d.rootName d.rootChildren

/-- `notifyObservers`: calls `onDocumentChanged` on each registered
observer in order; modelled as the sequence of notified observers. -/
def Document.notifyObservers (d : Document) : List Nat := d.observers

/-- `Document::addElement`: appends to the root section's children, then
notifies observers.  Returns the updated document and the notification
sequence issued before returning. -/
def Document.addElement (d : Document) (e : DocumentElement) :
    Document × List Nat :=
  let d' : Document := ⟨d.rootName, d.rootChildren ++ [e], d.observers, d.currentState⟩
  (d', d'.notifyObservers)

/-- `Document::attach`: `observers.push_back(observer)`. -/
def Document.attach (d : Document) (o : Nat) : Document :=
  ⟨d.rootName, d.rootChildren, d.observers ++ [o], d.currentState⟩

/-- `Document::setState`: replaces the current state object. -/
def Document.setState (d : Document) (s : DocumentState) : Document :=
  ⟨d.rootName, d.rootChildren, d.observers, s⟩

/-! ## Command history (undo/redo)

The only `Command` the core supplies is `AddElementCommand`; history
entries are its states.  `element` is the owned element still to be added
(moved out on first execute), `clonedElement` the clone kept for redo,
`executed` the applied flag. -/

/-- The state of one `AddElementCommand` object. -/
structure AddElementCommand where
  element : Option DocumentElement
  clonedElement : Option DocumentElement
  executed : Bool

/-- `AddElementCommand(doc, el)` constructor state. -/
def AddElementCommand.new (el : DocumentElement) : AddElementCommand :=
  ⟨some el, none, false⟩

/-- `AddElementCommand::execute` acting on the document.  If not yet
executed: with an owned element, keep a clone and move the element into
the document; otherwise re-clone the kept clone and add that; mark
executed.  Returns the command state, the document, and console output. -/
def AddElementCommand.execute (cmd : AddElementCommand) (doc : Document) :
    AddElementCommand × Document × List String :=
  if cmd.executed then (cmd, doc, [])
  else
    match cmd.element with
    | some el =>
        (⟨none, some (clone el), true⟩, (doc.addElement el).1,
          ["[Command] Executing: Add Element"])
    | none =>
        match cmd.clonedElement with
        | some ce =>
            (⟨none, some ce, true⟩, (doc.addElement (clone ce)).1,
              ["[Command] Executing: Add Element"])
        | none => (⟨none, none, true⟩, doc, ["[Command] Executing: Add Element"])

/-- `AddElementCommand::undo`: prints the simplified-no-removal notice and
clears the executed flag; the document tree is left untouched. -/
def AddElementCommand.undoCmd (cmd : AddElementCommand) (doc : Document) :
    AddElementCommand × Document × List String :=
  (⟨cmd.element, cmd.clonedElement, false⟩, doc,
    ["[Command] Undoing: Add Element (simplified - not removing)"])

/-- The two stacks of `CommandHistory` (head of list = top of stack). -/
structure CommandHistory where
  undoStack : List AddElementCommand
  redoStack : List AddElementCommand

/-- `CommandHistory::executeCommand`: execute the command, push it on the
undo stack, clear the redo stack. -/
def CommandHistory.executeCommand (h : CommandHistory) (doc : Document)
    (cmd : AddElementCommand) : CommandHistory × Document × List String :=
  let r := cmd.execute doc
  (⟨r.1 :: h.undoStack, []⟩, r.2.1, r.2.2)

/-- `CommandHistory::undo`: pop the undo stack, revert, push on the redo
stack; on an empty undo stack report "Nothing to undo" and change nothing. -/
def CommandHistory.undo (h : CommandHistory) (doc : Document) :
    CommandHistory × Document × List String :=
  match h.undoStack with
  | [] => (h, doc, ["[Command] Nothing to undo"])
  | c :: rest =>
      let r := c.undoCmd doc
      (⟨rest, r.1 :: h.redoStack⟩, r.2.1, r.2.2)

/-- `CommandHistory::redo`: pop the redo stack, re-execute, push on the
undo stack; on an empty redo stack report "Nothing to redo" and change
nothing. -/
def CommandHistory.redo (h : CommandHistory) (doc : Document) :
    CommandHistory × Document × List String :=
  match h.redoStack with
  | [] => (h, doc, ["[Command] Nothing to redo"])
  | c :: rest =>
      let r := c.execute doc
      (⟨r.1 :: h.undoStack, rest⟩, r.2.1, r.2.2)

/-- A freshly constructed history with both stacks empty. -/
def emptyHistory : CommandHistory := ⟨[], []⟩

/-! ## Flat iterator (`DocumentIterator`) -/

/-- `DocumentIterator::collectElements` over a section's child list: push
each child, and recurse into the child's children exactly when the child
`dynamic_cast`s to `Section`.  The section the call was made on is not
itself pushed, and the wrapped elements inside decorators and proxies are
not descended into. -/
def collectElements : List DocumentElement → List DocumentElement
  | [] => []
  | .sect n cs2 :: cs =>
      .sect n cs2 :: (collectElements cs2 ++ collectElements cs)
  | .paragraph c f :: cs => .paragraph c f :: collectElements cs
  | .image p :: cs => .image p :: collectElements cs
  | .table r c :: cs => .table r c :: collectElements cs
  | .bold e :: cs => .bold e :: collectElements cs
  | .italic e :: cs => .italic e :: collectElements cs
  | .imageProxy p b :: cs => .imageProxy p b :: collectElements cs
  | .shapeAdapter x y w h :: cs => .shapeAdapter x y w h :: collectElements cs

/-- The iterator state: the eagerly flattened snapshot and the cursor. -/
structure DocumentIterator where
  elements : List DocumentElement
  position : Nat

/-- `DocumentIterator(doc)`: flatten starting from the root section. -/
def DocumentIterator.ofDoc (d : Document) : DocumentIterator :=
  ⟨collectElements d.rootChildren, 0⟩

/-- `hasNext()`: cursor strictly before the end of the snapshot. -/
def DocumentIterator.hasNext (it : DocumentIterator) : Bool :=
  it.position < it.elements.length

/-- `next()`: the element under the cursor (advancing it), or the null
sentinel after exhaustion. -/
def DocumentIterator.next (it : DocumentIterator) :
    Option DocumentElement × DocumentIterator :=
  if it.position < it.elements.length then
    (it.elements[it.position]?, ⟨it.elements, it.position + 1⟩)
  else
    (none, it)

/-- `reset()`: rewind the cursor; the snapshot is not rebuilt. -/
def DocumentIterator.reset (it : DocumentIterator) : DocumentIterator :=
  ⟨it.elements, 0⟩

/-- Results of `k` successive `next()` calls, with the final state. -/
def takeNexts (it : DocumentIterator) :
    Nat → List (Option DocumentElement) × DocumentIterator
  | 0 => ([], it)
  | k + 1 =>
      let r := it.next
      let rs := takeNexts r.2 k
      (r.1 :: rs.1, rs.2)

mutual

/-- Number of nodes of an element subtree: the subtree's own root and
every transitively contained element (section children and the elements
wrapped by decorators). -/
def countNodes : DocumentElement → Nat
  | .sect _ cs => 1 + countNodesList cs
  | .bold e => 1 + countNodes e
  | .italic e => 1 + countNodes e
  | _ => 1

/-- Sum of subtree sizes over a child list. -/
def countNodesList : List DocumentElement → Nat
  | [] => 0
  | c :: cs => countNodes c + countNodesList cs

end

/-- The undo/redo scenario of the history spec: `executeCommand(add x)`
on a fresh history over `doc`, then `undo()`, then `redo()`.  Returns the
final history, document and console output. -/
def undoRedoScenario (doc : Document) (x : DocumentElement) :
    CommandHistory × Document × List String :=
  let s1 := emptyHistory.executeCommand doc (AddElementCommand.new x)
  let s2 := s1.1.undo s1.2.1
  s2.1.redo s2.2.1

/-! ## Facts about the format cache -/

/-- A factory is well formed when every interned id is below the fresh-id
counter and no two entries share an id (each entry is a distinct shared
instance). -/
def FactoryWF (fac : CharacterFormatFactory) : Prop :=
  (∀ p ∈ fac.formats, p.2 < fac.nextId) ∧
    fac.formats.Pairwise (fun a b => a.2 ≠ b.2)

theorem lookupFmt_append_of_none {l : List (String × Nat)} {key : String}
    (h : lookupFmt l key = none) (v : Nat) :
    lookupFmt (l ++ [(key, v)]) key = some v := by
  induction l with
  | nil => simp [lookupFmt]
  | cons p rest ih =>
      obtain ⟨k, w⟩ := p
      by_cases hk : k = key
      · simp [lookupFmt, hk] at h
      · simp only [lookupFmt, hk, if_neg, List.cons_append] at h ⊢
        exact ih h

theorem lookupFmt_mem {l : List (String × Nat)} {key : String} {v : Nat}
    (h : lookupFmt l key = some v) : (key, v) ∈ l := by
  induction l with
  | nil => simp [lookupFmt] at h
  | cons p rest ih =>
      obtain ⟨k, w⟩ := p
      by_cases hk : k = key
      · simp [lookupFmt, hk] at h
        simp [hk, h]
      · simp only [lookupFmt, hk, if_neg] at h
        exact List.mem_cons_of_mem _ (ih h)

theorem lookupFmt_inj {l : List (String × Nat)}
    (hpw : l.Pairwise (fun a b => a.2 ≠ b.2)) {k1 k2 : String} {v1 v2 : Nat}
    (h1 : lookupFmt l k1 = some v1) (h2 : lookupFmt l k2 = some v2)
    (hk : k1 ≠ k2) : v1 ≠ v2 := by
  induction l with
  | nil => simp [lookupFmt] at h1
  | cons p rest ih =>
      obtain ⟨k, w⟩ := p
      rw [List.pairwise_cons] at hpw
      by_cases e1 : k = k1 <;> by_cases e2 : k = k2
      · exact absurd (e1 ▸ e2) hk
      · simp [lookupFmt, e1] at h1
        simp only [lookupFmt, e2, if_neg] at h2
        exact h1 ▸ hpw.1 _ (lookupFmt_mem h2)
      · simp [lookupFmt, e2] at h2
        simp only [lookupFmt, e1, if_neg] at h1
        exact fun hv => (hpw.1 _ (lookupFmt_mem h1)) (h2 ▸ hv.symm)
      · simp only [lookupFmt, e1, e2, if_neg] at h1 h2
        exact ih hpw.2 h1 h2

theorem getFormat_eq_of_found {fac : CharacterFormatFactory} {font : String}
    {size : Int} {color : String} {id : Nat}
    (h : lookupFmt fac.formats (getKey font size color) = some id) :
    getFormat fac font size color = (fac, id) := by
  unfold getFormat
  simp [h]

theorem getFormat_eq_of_missing {fac : CharacterFormatFactory} {font : String}
    {size : Int} {color : String}
    (h : lookupFmt fac.formats (getKey font size color) = none) :
    getFormat fac font size color =
      (⟨fac.formats ++ [(getKey font size color, fac.nextId)], fac.nextId + 1⟩,
        fac.nextId) := by
  unfold getFormat
  simp [h]

theorem getFormat_lookup (fac : CharacterFormatFactory) (font : String)
    (size : Int) (color : String) :
    lookupFmt (getFormat fac font size color).1.formats (getKey font size color) =
      some (getFormat fac font size color).2 := by
  cases h : lookupFmt fac.formats (getKey font size color) with
  | some id => rw [getFormat_eq_of_found h]; exact h
  | none => rw [getFormat_eq_of_missing h]; exact lookupFmt_append_of_none h fac.nextId

theorem getFormat_wf {fac : CharacterFormatFactory} (hwf : FactoryWF fac)
    (font : String) (size : Int) (color : String) :
    FactoryWF (getFormat fac font size color).1 := by
  cases h : lookupFmt fac.formats (getKey font size color) with
  | some id => rw [getFormat_eq_of_found h]; exact hwf
  | none =>
      rw [getFormat_eq_of_missing h]
      constructor
      · intro p hp
        rcases List.mem_append.mp hp with hin | hin
        · exact Nat.lt_succ_of_lt (hwf.1 p hin)
        · simp at hin
          simp [hin]
      · rw [List.pairwise_append]
        refine ⟨hwf.2, List.pairwise_singleton _ _, ?_⟩
        intro a ha b hb
        simp only [List.mem_singleton] at hb
        subst hb
        have := hwf.1 a ha
        simp only []
        omega

/-! ## Facts about cloning and drawing -/

theorem cloneList_eq_map : ∀ l : List DocumentElement, cloneList l = l.map clone
  | [] => rfl
  | c :: cs => by simp [cloneList, cloneList_eq_map cs]

mutual

theorem drawS_clone_trace : ∀ e : DocumentElement,
    (drawS (clone e)).2.1 = (drawS e).2.1
  | .paragraph c f => by simp [clone, drawS]
  | .image p => by simp [clone, drawS]
  | .table r c => by simp [clone, drawS]
  | .sect n cs => by simp [clone, drawS, drawSList_cloneList_trace cs]
  | .bold w => by
      cases w with
      | paragraph c f => simp [clone, drawS]
      | image p => simp [clone, drawS]
      | table r c => simp [clone, drawS]
      | sect n cs => simp [clone, drawS, drawSList_cloneList_trace cs]
      | bold e => simpa [clone, drawS] using drawS_clone_trace (DocumentElement.bold e)
      | italic e => simpa [clone, drawS] using drawS_clone_trace (DocumentElement.italic e)
      | imageProxy p b => cases b <;> simp [clone, drawS]
      | shapeAdapter a b c d => simp [clone, drawS]
  | .italic w => by
      cases w with
      | paragraph c f => simp [clone, drawS]
      | image p => simp [clone, drawS]
      | table r c => simp [clone, drawS]
      | sect n cs => simp [clone, drawS, drawSList_cloneList_trace cs]
      | bold e => simpa [clone, drawS] using drawS_clone_trace (DocumentElement.bold e)
      | italic e => simpa [clone, drawS] using drawS_clone_trace (DocumentElement.italic e)
      | imageProxy p b => cases b <;> simp [clone, drawS]
      | shapeAdapter a b c d => simp [clone, drawS]
  | .imageProxy p b => by cases b <;> simp [clone, drawS]
  | .shapeAdapter x y w h => by simp [clone, drawS]

theorem drawSList_cloneList_trace : ∀ l : List DocumentElement,
    (drawSList (cloneList l)).2.1 = (drawSList l).2.1
  | [] => rfl
  | c :: cs => by
      simp [cloneList, drawSList, drawS_clone_trace c, drawSList_cloneList_trace cs]

end

/-! ## Facts about the flat iterator -/

theorem takeNexts_exhausted : ∀ (k : Nat) (l : List DocumentElement) (p : Nat),
    l.length ≤ p → takeNexts ⟨l, p⟩ k = (List.replicate k none, ⟨l, p⟩)
  | 0, _, _, _ => rfl
  | k + 1, l, p, h => by
      have hnot : ¬ p < l.length := by omega
      simp [takeNexts, DocumentIterator.next, hnot,
        takeNexts_exhausted k l p h, List.replicate_succ]

theorem takeNexts_full : ∀ (k : Nat) (l : List DocumentElement) (p : Nat),
    p + k = l.length →
    takeNexts ⟨l, p⟩ k = ((l.drop p).map some, ⟨l, l.length⟩)
  | 0, l, p, h => by
      have hp : p = l.length := by omega
      subst hp
      simp [takeNexts, List.drop_length]
  | k + 1, l, p, h => by
      have hp : p < l.length := by omega
      have hih := takeNexts_full k l (p + 1) (by omega)
      have hdrop : l.drop p = l[p] :: l.drop (p + 1) := List.drop_eq_getElem_cons hp
      rw [takeNexts, DocumentIterator.next, if_pos hp, hih, hdrop,
        List.getElem?_eq_getElem hp, List.map_cons]

theorem takeNexts_add : ∀ (a b : Nat) (it : DocumentIterator),
    takeNexts it (a + b) =
      ((takeNexts it a).1 ++ (takeNexts (takeNexts it a).2 b).1,
        (takeNexts (takeNexts it a).2 b).2)
  | 0, b, it => by simp [takeNexts]
  | a + 1, b, it => by
      have hn : a + 1 + b = (a + b) + 1 := by omega
      rw [hn]
      simp [takeNexts, takeNexts_add a b it.next.2]

/-! ## Claim theorems -/

/-- C1: the spec's testable history property says `executeCommand(add X)`
then `undo()` then `redo()` leaves the tree containing X exactly once.
The code's `AddElementCommand::undo` only clears the applied flag and
leaves the tree untouched, and `redo` re-executes the command, which adds
a clone of the kept clone: the element ends up in the tree twice.  On an
empty document with X the paragraph "x", the final root children are
exactly [X, X]. -/
theorem C1_undo_redo_leaves_two_copies (doc : Document) (x : DocumentElement) :
    (undoRedoScenario doc x).2.1.rootChildren =
        doc.rootChildren ++ [x, clone (clone x)] ∧
      (undoRedoScenario Document.new (.paragraph "x" none)).2.1.rootChildren =
        [.paragraph "x" none, .paragraph "x" none] := by
  constructor
  · simp [undoRedoScenario, CommandHistory.executeCommand, CommandHistory.undo,
      CommandHistory.redo, AddElementCommand.execute, AddElementCommand.undoCmd,
      AddElementCommand.new, Document.addElement, emptyHistory]
  · simp [undoRedoScenario, CommandHistory.executeCommand, CommandHistory.undo,
      CommandHistory.redo, AddElementCommand.execute, AddElementCommand.undoCmd,
      AddElementCommand.new, Document.addElement, emptyHistory, Document.new, clone]

/-- C2: for every element, the duplicate issues the very same sequence of
renderer calls as the original, so every backend produces identical
output; `Section::clone` rebuilds the child list as the in-order clones
of the children (count and order preserved, each child a fresh deep
copy); `Paragraph`'s copy keeps only the interned format handle shared. -/
theorem C2_duplicate_render (e : DocumentElement) (n c : String)
    (cs : List DocumentElement) (f : Option Nat) :
    drawTrace (clone e) = drawTrace e ∧
      clone (.sect n cs) = .sect n (cs.map clone) ∧
      (cs.map clone).length = cs.length ∧
      clone (.paragraph c f) = .paragraph c f := by
  refine ⟨drawS_clone_trace e, ?_, by simp, rfl⟩
  simp [clone, cloneList_eq_map]

/-- C5 counterexample: the iterator never yields the root section, so a
document whose tree is just the root container (1 node) yields zero
non-sentinel results: the very first `next()` already returns the null
sentinel, not 1 result as the claim requires. -/
theorem C5_counterexample :
    countNodes (Document.new.rootSection) = 1 ∧
      (takeNexts (DocumentIterator.ofDoc Document.new) 1).1 = [none] := by
  constructor
  · simp [Document.new, Document.rootSection, countNodes, countNodesList]
  · simp [takeNexts, DocumentIterator.ofDoc, DocumentIterator.next,
      collectElements, Document.new]

/-- C5 (amended): the enumerator yields, via repeated `next()`, exactly
one non-sentinel result per entry of the eagerly flattened snapshot
(every non-root node reached by descending into Section children only —
the root itself and the elements wrapped inside decorators or proxies are
not yielded); every further `next()` returns the null sentinel and never
fails; `reset()` returns the iterator to its initial state over the same
snapshot without re-flattening, so the run repeats identically. -/
theorem C5_enumerator (d : Document) (k : Nat) :
    (takeNexts (DocumentIterator.ofDoc d)
          ((collectElements d.rootChildren).length + k)).1 =
        (collectElements d.rootChildren).map some ++ List.replicate k none ∧
      (takeNexts (DocumentIterator.ofDoc d)
          ((collectElements d.rootChildren).length + k)).2.reset =
        DocumentIterator.ofDoc d ∧
      takeNexts
          ((takeNexts (DocumentIterator.ofDoc d)
              ((collectElements d.rootChildren).length + k)).2.reset)
          ((collectElements d.rootChildren).length + k) =
        takeNexts (DocumentIterator.ofDoc d)
          ((collectElements d.rootChildren).length + k) := by
  have hfull := takeNexts_full (collectElements d.rootChildren).length
    (collectElements d.rootChildren) 0 (by simp)
  have hadd := takeNexts_add (collectElements d.rootChildren).length k
    (DocumentIterator.ofDoc d)
  have hexh := takeNexts_exhausted k (collectElements d.rootChildren)
    (collectElements d.rootChildren).length (le_refl _)
  have hof : DocumentIterator.ofDoc d = ⟨collectElements d.rootChildren, 0⟩ := rfl
  rw [hof] at hadd
  rw [hfull] at hadd
  simp only [hexh, List.drop_zero] at hadd
  have hres : (takeNexts (DocumentIterator.ofDoc d)
      ((collectElements d.rootChildren).length + k)) =
      ((collectElements d.rootChildren).map some ++ List.replicate k none,
        ⟨collectElements d.rootChildren, (collectElements d.rootChildren).length⟩) := by
    rw [hof, hadd]
  refine ⟨by rw [hres], ?_, ?_⟩
  · rw [hres]
    rfl
  · rw [hres]
    exact hres

/-- C3 counterexample: the composite key joins the triple with
underscores, which is not injective: the triples ("a_1", 2, "c") and
("a", 1, "2_c") differ yet produce the same key "a_1_2_c", so the second
`getFormat` call returns the very instance interned by the first instead
of a distinct one. -/
theorem C3_counterexample :
    (("a_1", (2 : Int), "c") ≠ (("a" : String), (1 : Int), ("2_c" : String))) ∧
      (getFormat (getFormat emptyFactory "a_1" 2 "c").1 "a" 1 "2_c").2 =
        (getFormat emptyFactory "a_1" 2 "c").2 := by
  constructor
  · decide
  · rfl

/-- C3 (amended): on a well-formed cache, two `getFormat` calls with equal
triples return the identical interned instance, and calls whose composite
keys differ return distinct instances; triples that differ but collide on
the underscore-joined key (possible when a component contains an
underscore) share one instance. -/
theorem C3_format_interning (fac : CharacterFormatFactory)
    (f1 : String) (s1 : Int) (c1 : String)
    (f2 : String) (s2 : Int) (c2 : String) (hwf : FactoryWF fac) :
    ((f1 = f2 ∧ s1 = s2 ∧ c1 = c2) →
        (getFormat (getFormat fac f1 s1 c1).1 f2 s2 c2).2 =
          (getFormat fac f1 s1 c1).2) ∧
      (getKey f1 s1 c1 ≠ getKey f2 s2 c2 →
        (getFormat (getFormat fac f1 s1 c1).1 f2 s2 c2).2 ≠
          (getFormat fac f1 s1 c1).2) := by
  constructor
  · rintro ⟨rfl, rfl, rfl⟩
    have h := getFormat_lookup fac f1 s1 c1
    rw [getFormat_eq_of_found h]
  · intro hkey
    have h1 := getFormat_lookup fac f1 s1 c1
    have hwf1 := getFormat_wf hwf f1 s1 c1
    cases h2 : lookupFmt (getFormat fac f1 s1 c1).1.formats (getKey f2 s2 c2) with
    | some id2 =>
        rw [getFormat_eq_of_found h2]
        exact lookupFmt_inj hwf1.2 h2 h1 (Ne.symm hkey)
    | none =>
        have hmem := lookupFmt_mem h1
        have hlt := hwf1.1 _ hmem
        rw [getFormat_eq_of_missing h2]
        simp only []
        omega

/-- C3 witness: on the empty cache, the triples (Arial, 12, Black) and
(Times, 14, Red) have distinct keys and therefore receive distinct
instances. -/
theorem C3_format_interning_witness :
    (getFormat (getFormat emptyFactory "Arial" 12 "Black").1 "Times" 14 "Red").2 ≠
      (getFormat emptyFactory "Arial" 12 "Black").2 :=
  (C3_format_interning emptyFactory "Arial" 12 "Black" "Times" 14 "Red"
      ⟨fun p hp => absurd hp (List.not_mem_nil p), List.Pairwise.nil⟩).2
    (by decide)

/-- C4 counterexample: the deferred-load wrapper does not forward the
target Picture's tag: `ImageProxy::getType` returns the wrapper-specific
"ImageProxy", while the target `Image` reports "Image". -/
theorem C4_counterexample :
    getType (.imageProxy "photo.jpg" false) ≠ getType (.image "photo.jpg") := by
  decide

/-- C4 (amended): `TextDecorator::getType` (Bold and Italic) forwards the
wrapped element's tag for every inner element, but `ImageProxy::getType`
exposes its own wrapper identity "ImageProxy" rather than the target
Picture's tag "Image". -/
theorem C4_type_tags (e : DocumentElement) (p : String) (b : Bool) :
    getType (.bold e) = getType e ∧
      getType (.italic e) = getType e ∧
      getType (.imageProxy p b) = "ImageProxy" ∧
      getType (.image p) = "Image" :=
  ⟨rfl, rfl, rfl, rfl⟩

/-- C6: an unloaded proxy's first `render` materializes the real Picture
exactly once (one load event) and caches it; every `render` of a loaded
proxy issues zero additional materializations and preserves the loaded
state, reusing the cached instance for the renderer call. -/
theorem C6_proxy_materializes_once (p : String) :
    drawS (.imageProxy p false) = (.imageProxy p true, ([.renderImage p], 1)) ∧
      drawS (.imageProxy p true) = (.imageProxy p true, ([.renderImage p], 0)) := by
  constructor <;> simp [drawS]

/-- C7: `undo()` on an empty undo stack reports "Nothing to undo" and
changes neither stack nor the document; `redo()` on an empty redo stack is
symmetric; `executeCommand` applies the record immediately (the resulting
document and output are those of the record's `execute`), pushes the
executed record onto the undo stack, and clears the redo stack. -/
theorem C7_history_edge_cases (rs us : List AddElementCommand)
    (doc : Document) (h : CommandHistory) (cmd : AddElementCommand) :
    CommandHistory.undo ⟨[], rs⟩ doc =
        (⟨[], rs⟩, doc, ["[Command] Nothing to undo"]) ∧
      CommandHistory.redo ⟨us, []⟩ doc =
        (⟨us, []⟩, doc, ["[Command] Nothing to redo"]) ∧
      (h.executeCommand doc cmd).1.undoStack = (cmd.execute doc).1 :: h.undoStack ∧
      (h.executeCommand doc cmd).1.redoStack = [] ∧
      (h.executeCommand doc cmd).2.1 = (cmd.execute doc).2.1 ∧
      (h.executeCommand doc cmd).2.2 = (cmd.execute doc).2.2 :=
  ⟨rfl, rfl, rfl, rfl, rfl, rfl⟩

/-- C8: `addElement` succeeds on every document whatever its lifecycle
state: it appends the element at the end of the root section's children,
leaves the state (and the root name and observer list) unchanged, and
notifies exactly the registered observers, in registration order, before
returning; after attaching a further observer the notification sequence
ends with it. -/
theorem C8_addElement (d : Document) (e : DocumentElement) (o : Nat) :
    (d.addElement e).1.rootChildren = d.rootChildren ++ [e] ∧
      (d.addElement e).1.currentState = d.currentState ∧
      (d.addElement e).1.rootName = d.rootName ∧
      (d.addElement e).1.observers = d.observers ∧
      (d.addElement e).2 = d.observers ∧
      ((d.attach o).addElement e).2 = d.observers ++ [o] :=
  ⟨rfl, rfl, rfl, rfl, rfl, rfl⟩

/-- C9: the emphasis decorators do not compose: the outer decorator's
`dynamic_cast` to `Paragraph` fails on an inner decorator, so
`Bold(Italic(e))` renders exactly as `Italic(e)` and `Italic(Bold(e))`
exactly as `Bold(e)`, for every inner element `e` (in particular every
paragraph); the outer emphasis flag is dropped. -/
theorem C9_decorators_do_not_compose (e : DocumentElement) :
    drawTrace (.bold (.italic e)) = drawTrace (.italic e) ∧
      drawTrace (.italic (.bold e)) = drawTrace (.bold e) := by
  constructor <;> simp [drawTrace, drawS]

/-- C10: `ImageProxy::clone` rebuilds the proxy from the stored path
only, so the duplicate is always unloaded even when the original holds a
cached Picture, and the duplicate's first `render` therefore triggers a
fresh materialization event. -/
theorem C10_clone_resets_proxy (p : String) (b : Bool) :
    clone (.imageProxy p b) = .imageProxy p false ∧
      drawLoads (clone (.imageProxy p b)) = 1 := by
  constructor <;> simp [clone, drawLoads, drawS]

end DocEditor
